import Mathlib

/-!
Verification of the replicated key-value store layer (KvStore) of the
raftexample repository: the State Table, the Apply Loop (`readCommits`),
the Proposal Encoder (`Propose`) and the Snapshot Bridge
(`GetSnapshot` / `recoverFromSnapshot`), together with the thin HTTP
adapter (`ServeHTTP`).

Byte sequences are modelled as `List Nat`.  The Go standard-library
serializations (`encoding/gob` for proposals, `encoding/json` for
snapshots) are external to the repository; they are modelled here as
injective length-prefixed codecs that enjoy the round-trip guarantee
those libraries document for the concrete types involved
(`struct kv \x7bKey, Val, Opt string\x7d` and `map[string]string`).
All repository logic (the switch on the operation tag, the apply loop's
control flow, the lock-free view of state as explicit state passing,
the HTTP method dispatch) is translated directly from the source.
-/

/-- Serialization of one string: its length followed by its character
codes.  Stands in for the stdlib encoders' string wire form. -/
def encodeStr (s : String) : List Nat :=
  s.data.length :: s.data.map Char.toNat

/-- Decode `n` character codes from the front of `l`; fails on
truncation or on a code that is not a valid scalar value. -/
def decodeChars : Nat → List Nat → Option (List Char × List Nat)
  | 0, l => some ([], l)
  | _ + 1, [] => none
  | n + 1, c :: l =>
    if h : c.isValidChar then
      match decodeChars n l with
      | none => none
      | some (cs, rest) => some (Char.ofNatAux c h :: cs, rest)
    else none

/-- Decode one length-prefixed string from the front of `l`. -/
def decodeStr : List Nat → Option (String × List Nat)
  | [] => none
  | n :: l =>
    match decodeChars n l with
    | none => none
    | some (cs, rest) => some (String.mk cs, rest)

theorem Char.ofNatAux_toNat (c : Char) (h : c.toNat.isValidChar) :
    Char.ofNatAux c.toNat h = c := by
  apply Char.eq_of_val_eq
  apply UInt32.eq_of_toBitVec_eq
  apply BitVec.eq_of_toNat_eq
  rfl

theorem decodeChars_encode (cs : List Char) (rest : List Nat) :
    decodeChars cs.length (cs.map Char.toNat ++ rest) = some (cs, rest) := by
  induction cs with
  | nil => simp [decodeChars]
  | cons c cs ih =>
    have hv : (Char.toNat c).isValidChar := c.valid
    simp [decodeChars, hv, ih, Char.ofNatAux_toNat]

theorem decodeStr_encode (s : String) (rest : List Nat) :
    decodeStr (encodeStr s ++ rest) = some (s, rest) := by
  cases s with
  | mk data => simp [encodeStr, decodeStr, decodeChars_encode]

/-- The State Table, `map[string]string`, as an association list. -/
abbrev Table := List (String × String)

/-- Map lookup: `v, ok := kvStore[key]`. -/
def tlookup : Table → String → Option String
  | [], _ => none
  | (k', v) :: t, k => if k' = k then some v else tlookup t k

/-- Map assignment: `kvStore[key] = value` (overwrite in place, else append). -/
def tset : Table → String → String → Table
  | [], k, v => [(k, v)]
  | (k', v') :: t, k, v =>
    if k' = k then (k, v) :: t else (k', v') :: tset t k v

/-- Map deletion: `delete(kvStore, key)`. -/
def tdel (t : Table) (k : String) : Table :=
  t.filter (fun p => p.1 ≠ k)

theorem tlookup_tset_self (t : Table) (k v : String) :
    tlookup (tset t k v) k = some v := by
  induction t with
  | nil => simp [tset, tlookup]
  | cons p t ih =>
    by_cases h : p.1 = k
    · simp [tset, h, tlookup]
    · simp [tset, h, tlookup, ih]

theorem tlookup_tset_other (t : Table) (k v k' : String) (h : k' ≠ k) :
    tlookup (tset t k v) k' = tlookup t k' := by
  induction t with
  | nil => simp [tset, tlookup, Ne.symm h]
  | cons p t ih =>
    cases p with
    | mk pk pv =>
      by_cases hp : pk = k
      · subst hp
        simp [tset, tlookup, Ne.symm h]
      · by_cases hk : pk = k'
        · subst hk
          simp [tset, hp, tlookup, h]
        · simp [tset, hp, tlookup, hk, ih]

theorem tlookup_tdel_self (t : Table) (k : String) :
    tlookup (tdel t k) k = none := by
  induction t with
  | nil => simp [tdel, tlookup]
  | cons p t ih =>
    by_cases h : p.1 = k
    · simpa [tdel, h] using ih
    · simpa [tdel, h, tlookup] using ih

theorem tlookup_tdel_other (t : Table) (k k' : String) (h : k' ≠ k) :
    tlookup (tdel t k) k' = tlookup t k' := by
  induction t with
  | nil => simp [tdel, tlookup]
  | cons p t ih =>
    cases p with
    | mk pk pv =>
      by_cases hp : pk = k
      · subst hp
        simpa [tdel, tlookup, Ne.symm h] using ih
      · by_cases hk : pk = k'
        · subst hk
          simp [tdel, hp, tlookup, h]
        · simpa [tdel, hp, tlookup, hk] using ih

theorem tdel_idem (t : Table) (k : String) :
    tdel (tdel t k) k = tdel t k := by
  simp [tdel, List.filter_filter]

theorem tdel_absent (t : Table) (k : String) (h : tlookup t k = none) :
    tdel t k = t := by
  induction t with
  | nil => rfl
  | cons p t ih =>
    cases p with
    | mk pk pv =>
      by_cases hp : pk = k
      · simp [tlookup, hp] at h
      · simp only [tlookup, if_neg hp] at h
        simp [tdel, hp] at ih ⊢
        exact ih h

/-- The proposal record, `type kv struct { Key, Val, Opt string }`. -/
structure kv where
  Key : String
  Val : String
  Opt : String
deriving DecidableEq, Repr

/-- Modelled from the spec: `encoding/gob` (Go standard library, not part
of this repository) serialization of one `kv` record, as performed by
`Propose` via `gob.NewEncoder(&buf).Encode(kv{k, v, op})`.  Modelled as
the concatenation of the three length-prefixed fields; gob guarantees
that decoding the encoder's output yields the record back. -/
def gobEncode (e : kv) : List Nat :=
  encodeStr e.Key ++ encodeStr e.Val ++ encodeStr e.Opt

/-- Modelled from the spec: `encoding/gob` deserialization of one `kv`
record, as performed by the Apply Loop via `dec.Decode(&dataKv)`;
malformed input yields `none` (a decode error). -/
def gobDecode (b : List Nat) : Option kv :=
  match decodeStr b with
  | none => none
  | some (k, b₁) =>
    match decodeStr b₁ with
    | none => none
    | some (v, b₂) =>
      match decodeStr b₂ with
      | none => none
      | some (op, rest) =>
        match rest with
        | [] => some ⟨k, v, op⟩
        | _ :: _ => none

theorem gobDecode_gobEncode (e : kv) : gobDecode (gobEncode e) = some e := by
  cases e with
  | mk k v op =>
    have h1 := decodeStr_encode k (encodeStr v ++ encodeStr op)
    have h2 := decodeStr_encode v (encodeStr op)
    have h3 : decodeStr (encodeStr op) = some (op, []) := by
      simpa using decodeStr_encode op []
    simp only [gobEncode, List.append_assoc] at h1 ⊢
    simp only [gobDecode, h1, h2, h3]

/-- Modelled from the spec: `encoding/json` (Go standard library, not part
of this repository) serialization of the whole `map[string]string`, as
performed by `GetSnapshot` via `json.Marshal(s.kvStore)`.  Modelled as the
entry count followed by the length-prefixed key and value of each entry. -/
def jsonMarshal (t : Table) : List Nat :=
  t.length :: t.foldr (fun p acc => encodeStr p.1 ++ encodeStr p.2 ++ acc) []

/-- Decode `n` key-value pairs from the front of `l`. -/
def decodePairs : Nat → List Nat → Option (Table × List Nat)
  | 0, l => some ([], l)
  | n + 1, l =>
    match decodeStr l with
    | none => none
    | some (k, l₁) =>
      match decodeStr l₁ with
      | none => none
      | some (v, l₂) =>
        match decodePairs n l₂ with
        | none => none
        | some (t, rest) => some ((k, v) :: t, rest)

/-- Modelled from the spec: `encoding/json` deserialization of a
`map[string]string`, as performed by `recoverFromSnapshot` via
`json.Unmarshal(snapshot, &store)`; malformed input yields `none`
(a decode error). -/
def jsonUnmarshal (b : List Nat) : Option Table :=
  match b with
  | [] => none
  | n :: l =>
    match decodePairs n l with
    | none => none
    | some (t, rest) =>
      match rest with
      | [] => some t
      | _ :: _ => none

theorem decodePairs_encode (t : Table) (rest : List Nat) :
    decodePairs t.length
      (t.foldr (fun p acc => encodeStr p.1 ++ encodeStr p.2 ++ acc) [] ++ rest)
      = some (t, rest) := by
  induction t with
  | nil => simp [decodePairs]
  | cons p t ih =>
    cases p with
    | mk k v =>
      have h1 := decodeStr_encode k
        (encodeStr v ++ (t.foldr (fun p acc => encodeStr p.1 ++ encodeStr p.2 ++ acc) [] ++ rest))
      have h2 := decodeStr_encode v
        (t.foldr (fun p acc => encodeStr p.1 ++ encodeStr p.2 ++ acc) [] ++ rest)
      simp only [List.append_assoc] at h1 h2 ih ⊢
      simp only [List.length_cons, List.foldr_cons, List.append_assoc, decodePairs, h1, h2, ih]

theorem jsonUnmarshal_jsonMarshal (t : Table) :
    jsonUnmarshal (jsonMarshal t) = some t := by
  have h := decodePairs_encode t []
  rw [List.append_nil] at h
  simp only [jsonMarshal, jsonUnmarshal, h]

/-- The store, `type KvStore struct`.  The propose channel is modelled as
the list of byte payloads written to it so far; the mutex only serializes
access and has no effect on the sequential semantics, so it is not
modelled.  The snapshotter handle is passed explicitly where used. -/
structure KvStore where
  proposeC : List (List Nat)
  kvStore : Table
deriving DecidableEq, Repr

/-- `func (s *KvStore) Lookup(key string) (string, bool)`: read
`s.kvStore[key]` under the read lock; an absent key yields the zero
value `("", false)`. -/
def KvStore.Lookup (s : KvStore) (key : String) : String × Bool :=
  match tlookup s.kvStore key with
  | some v => (v, true)
  | none => ("", false)

/-- The bytes `Propose` serializes for `(k, v, op)`. -/
def proposedBytes (k v op : String) : List Nat :=
  gobEncode ⟨k, v, op⟩

/-- `func (s *KvStore) Propose(k, v, op string)`: gob-encode `kv{k, v, op}`
and write the buffer to the propose channel.  (The encode-error branch
calls `log.Fatal`; gob encoding of a struct of strings cannot fail, and in
this model encoding is total, so that branch is unreachable.) -/
def KvStore.Propose (s : KvStore) (k v op : String) : KvStore :=
  { s with proposeC := s.proposeC ++ [proposedBytes k v op] }

/-- `func (s *KvStore) GetSnapshot() ([]byte, error)`: marshal the current
table under the lock.  `json.Marshal` of a `map[string]string` does not
fail, so no error component is modelled; the store is returned to expose
that the receiver is not mutated. -/
def KvStore.GetSnapshot (s : KvStore) : List Nat × KvStore :=
  (jsonMarshal s.kvStore, s)

/-- `func (s *KvStore) recoverFromSnapshot(snapshot []byte) error`:
unmarshal into a fresh map `store`; on error return the error with the
receiver untouched, on success replace `s.kvStore` wholesale.  The
result pairs the post-call store with `some ()` when an error was
returned and `none` on success. -/
def KvStore.recoverFromSnapshot (s : KvStore) (snapshot : List Nat) :
    KvStore × Option Unit :=
  match jsonUnmarshal snapshot with
  | none => (s, some ())
  | some store => ({ s with kvStore := store }, none)

/-- The body of the `switch dataKv.Opt` statement of `readCommits`:
`"SET"` assigns, `"DEL"` deletes, anything else does nothing. -/
def applyEntry (e : kv) (t : Table) : Table :=
  match e.Opt with
  | "SET" => tset t e.Key e.Val
  | "DEL" => tdel t e.Key
  | _ => t

/-- Apply a list of decoded entries in order. -/
def applyAll (es : List kv) (t : Table) : Table :=
  es.foldl (fun t e => applyEntry e t) t

/-- Result of `snapshotter.Load()`: `snap.ErrNoSnapshot`, another error,
or a snapshot whose `Data` field is the given bytes. -/
inductive SnapLoad where
  | errNoSnapshot
  | errOther
  | found (data : List Nat)
deriving DecidableEq, Repr

/-- A message on the commit channel: `nil` (the sentinel) or a pointer to
an encoded entry string. -/
abbrev Msg := Option (List Nat)

/-- How one invocation of `readCommits` ends. -/
inductive Outcome where
  /-- `log.Fatal` / `log.Panic` was reached: the process stops; the field
  records the table at that moment. -/
  | fatal (t : Table)
  /-- The `return` on `snap.ErrNoSnapshot` was reached: the invocation
  ends without consulting the error channel, leaving `rest` of the feed
  unconsumed. -/
  | returned (t : Table) (rest : List Msg)
  /-- The commit channel closed and the error channel carried no value. -/
  | finished (t : Table)
deriving DecidableEq, Repr

/-- One invocation of `func (s *KvStore) readCommits(commitC, errorC)`,
with the feed as an explicit list, the snapshotter's `Load` result and
the error channel's pending value as parameters, and the table threaded
through.  Mirrors the source line by line: on `nil`, `Load()`;
`ErrNoSnapshot` returns, any other error panics, otherwise the snapshot
data is unmarshalled (failure panics, success replaces the table).  On an
entry, gob-decode (failure is `log.Fatalf`, fatal), then the operation
switch.  When the feed is exhausted, a pending error-channel value is
`log.Fatal`, otherwise the invocation finishes. -/
def readCommits (snap : SnapLoad) (errC : Option Unit) :
    List Msg → Table → Outcome
  | [], t =>
    match errC with
    | some _ => .fatal t
    | none => .finished t
  | none :: rest, t =>
    match snap with
    | .errNoSnapshot => .returned t rest
    | .errOther => .fatal t
    | .found data =>
      match jsonUnmarshal data with
      | none => .fatal t
      | some store => readCommits snap errC rest store
  | some data :: rest, t =>
    match gobDecode data with
    | none => .fatal t
    | some dataKv => readCommits snap errC rest (applyEntry dataKv t)

/-- `NewKVStore` runs `readCommits` twice on the same channels: once
synchronously (the replay), then again in a goroutine.  When the first
invocation returns early (sentinel with no snapshot), the second one
consumes the remainder of the feed; in every other outcome the second
invocation sees a closed/held channel and contributes nothing further. -/
def applyLoopSystem (snap : SnapLoad) (errC : Option Unit)
    (msgs : List Msg) (t : Table) : Outcome :=
  match readCommits snap errC msgs t with
  | .returned t' rest => readCommits snap errC rest t'
  | o => o

/-- Modelled from the spec: `strconv.ParseUint(key[1:], 0, 64)` (Go
standard library, not part of this repository), simplified to decimal
digits; the value must fit in 64 bits. -/
def parseUint64 (s : String) : Option Nat :=
  match s.toNat? with
  | none => none
  | some n => if n < 2 ^ 64 then some n else none

/-- An HTTP request as the handler sees it: `r.Method`, `r.RequestURI`
and the fully read body (`ioutil.ReadAll(r.Body)`; the read-error branch
is an I/O condition outside this model). -/
structure HttpRequest where
  method : String
  uri : String
  body : String
deriving DecidableEq, Repr

/-- The observable response: status code, the values accumulated in the
`Allow` header (in the order set), and the written body. -/
structure HttpResponse where
  status : Nat
  allow : List String
  body : String
deriving DecidableEq, Repr

/-- A `raftpb.ConfChange` of type `ConfChangeAddNode` as built by the
POST branch. -/
structure ConfChange where
  nodeID : Nat
  context : String
deriving DecidableEq, Repr

/-- `func (h *HttpKVAPI) ServeHTTP(w, r)`: dispatch on `r.Method`.
PUT proposes `(key, body, "SET")` and answers 204; GET answers 200 with
the value or 404; POST parses a node id from `key[1:]` and emits a
configuration change (400 on a bad id), answering 204; DELETE proposes
`(key, "", "DEL")` and writes no status (Go's default 200 on return);
any other method answers 405 with `Allow: PUT, GET, POST, DELETE`.
Returns the response, the store after any proposal, and the
configuration-change channel contents. -/
def ServeHTTP (s : KvStore) (confChangeC : List ConfChange)
    (r : HttpRequest) : HttpResponse × KvStore × List ConfChange :=
  if r.method = "PUT" then
    (⟨204, [], ""⟩, s.Propose r.uri r.body "SET", confChangeC)
  else if r.method = "GET" then
    match s.Lookup r.uri with
    | (v, true) => (⟨200, [], v⟩, s, confChangeC)
    | (_, false) => (⟨404, [], "Failed to GET"⟩, s, confChangeC)
  else if r.method = "POST" then
    match parseUint64 (r.uri.drop 1) with
    | none => (⟨400, [], "Failed on POST"⟩, s, confChangeC)
    | some nodeId =>
      (⟨204, [], ""⟩, s, confChangeC ++ [⟨nodeId, r.body⟩])
  else if r.method = "DELETE" then
    (⟨200, [], ""⟩, s.Propose r.uri "" "DEL", confChangeC)
  else
    (⟨405, ["PUT", "GET", "POST", "DELETE"], "Method not allowed"⟩,
      s, confChangeC)

/-- Written from the spec's words for comparison with the code
(`applyAll`): the last SET or DEL entry for a key decides its final
value — later entries supersede earlier ones, entries with other
operation tags never count. -/
def lastWrite : List kv → String → Option kv
  | [], _ => none
  | e :: es, k =>
    match lastWrite es k with
    | some e' => some e'
    | none =>
      if e.Key = k ∧ (e.Opt = "SET" ∨ e.Opt = "DEL") then some e else none

/-- Written from the spec's words: the value `Lookup` should observe
after a sequence of entries — the value of the last SET for the key not
followed by a later DEL of that key, absent if the last write was a DEL
or no entry wrote the key. -/
def specLookup (es : List kv) (k : String) : Option String :=
  match lastWrite es k with
  | some e => if e.Opt = "SET" then some e.Val else none
  | none => none

theorem tlookup_applyAll (es : List kv) (t : Table) (k : String) :
    tlookup (applyAll es t) k =
      match lastWrite es k with
      | some e => if e.Opt = "SET" then some e.Val else none
      | none => tlookup t k := by
  induction es generalizing t with
  | nil => simp [applyAll, lastWrite]
  | cons e es ih =>
    have step : applyAll (e :: es) t = applyAll es (applyEntry e t) := rfl
    rw [step, ih]
    cases hlw : lastWrite es k with
    | some e' => simp [lastWrite, hlw]
    | none =>
      simp only [lastWrite, hlw]
      by_cases hw : e.Key = k ∧ (e.Opt = "SET" ∨ e.Opt = "DEL")
      · obtain ⟨hk, hop⟩ := hw
        subst hk
        rcases hop with hop | hop <;>
          simp [if_pos, applyEntry, hop, tlookup_tset_self, tlookup_tdel_self,
            And.intro rfl (Or.inl hop), And.intro rfl (Or.inr hop)]
      · rw [if_neg hw]
        rcases hs : decide (e.Opt = "SET") with _ | _
        · rcases hd : decide (e.Opt = "DEL") with _ | _
          · have hs' := of_decide_eq_false hs
            have hd' := of_decide_eq_false hd
            have happ : applyEntry e t = t := by
              unfold applyEntry
              split
              next heq => exact absurd heq hs'
              next heq => exact absurd heq hd'
              next => rfl
            rw [happ]
          · have hd' := of_decide_eq_true hd
            have hk : e.Key ≠ k := fun hk => hw ⟨hk, Or.inr hd'⟩
            simp [applyEntry, hd', tlookup_tdel_other t e.Key k (Ne.symm hk)]
        · have hs' := of_decide_eq_true hs
          have hk : e.Key ≠ k := fun hk => hw ⟨hk, Or.inl hs'⟩
          simp [applyEntry, hs', tlookup_tset_other t e.Key e.Val k (Ne.symm hk)]

theorem readCommits_encoded_front (snap : SnapLoad) (errC : Option Unit)
    (es : List kv) (rest : List Msg) (t : Table) :
    readCommits snap errC (es.map (fun e => some (gobEncode e)) ++ rest) t =
      readCommits snap errC rest (applyAll es t) := by
  induction es generalizing t with
  | nil => simp [applyAll]
  | cons e es ih =>
    show (match gobDecode (gobEncode e) with
      | none => Outcome.fatal t
      | some dataKv =>
        readCommits snap errC (es.map (fun e => some (gobEncode e)) ++ rest)
          (applyEntry dataKv t)) = _
    rw [gobDecode_gobEncode]
    exact ih (applyEntry e t)

/-- C1: for every sequence of Entries delivered on the commit feed and
processed by the Apply Loop, a subsequent `Lookup` on any key returns
exactly the cumulative effect of applying them in order: the value of
the last SET Entry for that key not followed by a later delete of that
key (`("", false)` if the last write was a delete or no entry wrote the
key).  `specLookup` is the spec's last-writer-wins reading; `applyAll`
is the code's per-entry switch folded over the feed. -/
theorem claim_apply_order (es : List kv) (pc : List (List Nat)) (k : String) :
    (KvStore.mk pc (applyAll es [])).Lookup k =
      match specLookup es k with
      | some v => (v, true)
      | none => ("", false) := by
  show (match tlookup (applyAll es []) k with
    | some v => (v, true)
    | none => ("", false)) = _
  rw [tlookup_applyAll]
  unfold specLookup
  cases lastWrite es k with
  | none => rfl
  | some e => rfl

/-- C2: applying a decoded Entry by operation: the `"SET"` tag inserts or
overwrites `kvStore[key] = value`; the delete tag (wire string `"DEL"`)
removes the key, and deleting an absent key is a no-op rather than an
error; any other tag leaves the State Table unchanged (a forward-
compatible NOOP — applying is total, so no error is possible). -/
theorem claim_entry_semantics (e : kv) (t : Table) :
    (e.Opt = "SET" →
      applyEntry e t = tset t e.Key e.Val ∧
      tlookup (applyEntry e t) e.Key = some e.Val) ∧
    (e.Opt = "DEL" →
      applyEntry e t = tdel t e.Key ∧
      (tlookup t e.Key = none → applyEntry e t = t)) ∧
    (e.Opt ≠ "SET" → e.Opt ≠ "DEL" → applyEntry e t = t) := by
  refine ⟨fun hs => ?_, fun hd => ?_, fun hs hd => ?_⟩
  · have happ : applyEntry e t = tset t e.Key e.Val := by
      unfold applyEntry
      split
      next => rfl
      next heq => rw [hs] at heq; exact absurd heq (by decide)
      next h1 h2 => exact absurd hs h1
    exact ⟨happ, by rw [happ]; exact tlookup_tset_self t e.Key e.Val⟩
  · have happ : applyEntry e t = tdel t e.Key := by
      unfold applyEntry
      split
      next heq => rw [hd] at heq; exact absurd heq (by decide)
      next => rfl
      next h1 h2 => exact absurd hd h2
    exact ⟨happ, fun habs => by rw [happ]; exact tdel_absent t e.Key habs⟩
  · unfold applyEntry
    split
    next heq => exact absurd heq hs
    next heq => exact absurd heq hd
    next => rfl

theorem claim_entry_semantics_witness :
    applyEntry ⟨"a", "1", "SET"⟩ [] = tset [] "a" "1" ∧
    applyEntry ⟨"a", "", "DEL"⟩ [("a", "1")] = tdel [("a", "1")] "a" ∧
    applyEntry ⟨"b", "", "DEL"⟩ [("a", "1")] = [("a", "1")] ∧
    applyEntry ⟨"a", "1", "NOOP"⟩ [("a", "1")] = [("a", "1")] :=
  ⟨((claim_entry_semantics ⟨"a", "1", "SET"⟩ []).1 rfl).1,
   ((claim_entry_semantics ⟨"a", "", "DEL"⟩ [("a", "1")]).2.1 rfl).1,
   ((claim_entry_semantics ⟨"b", "", "DEL"⟩ [("a", "1")]).2.1 rfl).2 (by decide),
   (claim_entry_semantics ⟨"a", "1", "NOOP"⟩ [("a", "1")]).2.2 (by decide) (by decide)⟩

/-- C3, counterexample: on the absence-sentinel with `ErrNoSnapshot`,
`readCommits` executes `return`, so the invocation terminates and the
entry following the sentinel is never applied — the loop does not
"continue processing subsequent messages".  Even the full `NewKVStore`
arrangement (a synchronous replay invocation followed by a goroutine
invocation, `applyLoopSystem`) stops once each invocation has consumed
one such sentinel: delivering SET "a" "1" after two sentinels leaves the
table empty, while continuing as claimed would make "a" map to "1"
(`specLookup` of the pending entry). -/
theorem claim_c3_counterexample :
    readCommits SnapLoad.errNoSnapshot none
        [none, some (proposedBytes "a" "1" "SET")] [] =
      Outcome.returned [] [some (proposedBytes "a" "1" "SET")] ∧
    applyLoopSystem SnapLoad.errNoSnapshot none
        [none, none, some (proposedBytes "a" "1" "SET")] [] =
      Outcome.returned [] [some (proposedBytes "a" "1" "SET")] ∧
    tlookup [] "a" = none ∧
    specLookup [⟨"a", "1", "SET"⟩] "a" = some "1" :=
  ⟨rfl, rfl, rfl, rfl⟩

/-- C3, amended: when the Apply Loop receives the absence-sentinel and
the Snapshot Store reports that no snapshot exists, the State Table is
left unchanged and `readCommits` returns normally — no crash, no panic,
no error-channel check — handing the rest of the feed back unconsumed;
messages after the first such sentinel are processed only because
`NewKVStore` runs a second `readCommits` invocation on the same feed. -/
theorem claim_c3_amended (errC : Option Unit) (rest : List Msg) (t : Table) :
    readCommits SnapLoad.errNoSnapshot errC (none :: rest) t =
      Outcome.returned t rest ∧
    applyLoopSystem SnapLoad.errNoSnapshot errC (none :: rest) t =
      readCommits SnapLoad.errNoSnapshot errC rest t :=
  ⟨rfl, rfl⟩

/-- C4: for every store, `recoverFromSnapshot (GetSnapshot())` succeeds
and reproduces the original mapping — the restored store equals the
captured one, hence has the same key set and the same value for every
key (stated both structurally and observationally via `Lookup`). -/
theorem claim_snapshot_roundtrip (s : KvStore) :
    s.recoverFromSnapshot s.GetSnapshot.1 = (s, none) ∧
    ∀ k, (s.recoverFromSnapshot s.GetSnapshot.1).1.Lookup k = s.Lookup k := by
  have h : s.recoverFromSnapshot s.GetSnapshot.1 = (s, none) := by
    unfold KvStore.recoverFromSnapshot KvStore.GetSnapshot
    rw [jsonUnmarshal_jsonMarshal]
  exact ⟨h, fun k => by rw [h]⟩

/-- C5: the bytes `Propose(k, v, op)` appends to the propose channel,
when decoded by the Apply Loop's entry decoder, yield exactly the record
`⟨k, v, op⟩` (and `Propose` touches nothing else); in particular, after
proposing SET "a" "1" and delivering those very bytes on the commit
feed, `Lookup "a"` returns `("1", true)`. -/
theorem claim_propose_roundtrip (s : KvStore) (k v op : String) :
    (s.Propose k v op).proposeC = s.proposeC ++ [proposedBytes k v op] ∧
    (s.Propose k v op).kvStore = s.kvStore ∧
    gobDecode (proposedBytes k v op) = some ⟨k, v, op⟩ ∧
    readCommits SnapLoad.errNoSnapshot none
        [some (proposedBytes "a" "1" "SET")] [] =
      Outcome.finished [("a", "1")] ∧
    (KvStore.mk [] [("a", "1")]).Lookup "a" = ("1", true) :=
  ⟨rfl, rfl, gobDecode_gobEncode ⟨k, v, op⟩, by decide, rfl⟩

/-- C6: `recoverFromSnapshot` on bytes that do not deserialize reports a
decode error and leaves the State Table exactly as it was (no partial
replacement); on any bytes that do deserialize to a mapping `m` it
succeeds and replaces the whole table with `m`. -/
theorem claim_restore_error_frame (s : KvStore) (b : List Nat) :
    (jsonUnmarshal b = none → s.recoverFromSnapshot b = (s, some ())) ∧
    (∀ m, jsonUnmarshal b = some m →
      s.recoverFromSnapshot b = ({ s with kvStore := m }, none)) := by
  constructor
  · intro h
    unfold KvStore.recoverFromSnapshot
    rw [h]
  · intro m h
    unfold KvStore.recoverFromSnapshot
    rw [h]

theorem claim_restore_error_frame_witness :
    (KvStore.mk [] [("x", "9")]).recoverFromSnapshot [1] =
      (KvStore.mk [] [("x", "9")], some ()) ∧
    (KvStore.mk [] []).recoverFromSnapshot (jsonMarshal [("a", "1")]) =
      (KvStore.mk [] [("a", "1")], none) :=
  ⟨(claim_restore_error_frame (KvStore.mk [] [("x", "9")]) [1]).1 (by decide),
   (claim_restore_error_frame (KvStore.mk [] []) (jsonMarshal [("a", "1")])).2
     [("a", "1")] (by decide)⟩

/-- C7: two consecutive DELETE entries for the same key never produce an
error — the Apply Loop finishes normally (no fatal outcome) — and after
both the key is absent; applying delete is idempotent. -/
theorem claim_delete_idempotent (t : Table) (k v₁ v₂ : String) :
    readCommits SnapLoad.errNoSnapshot none
        [some (proposedBytes k v₁ "DEL"), some (proposedBytes k v₂ "DEL")] t =
      Outcome.finished (tdel t k) ∧
    applyEntry ⟨k, v₂, "DEL"⟩ (applyEntry ⟨k, v₁, "DEL"⟩ t) =
      applyEntry ⟨k, v₁, "DEL"⟩ t ∧
    tlookup (applyEntry ⟨k, v₂, "DEL"⟩ (applyEntry ⟨k, v₁, "DEL"⟩ t)) k = none := by
  have h1 := gobDecode_gobEncode ⟨k, v₁, "DEL"⟩
  have h2 := gobDecode_gobEncode ⟨k, v₂, "DEL"⟩
  have happ : ∀ v, applyEntry ⟨k, v, "DEL"⟩ t = tdel t k := fun v => rfl
  refine ⟨?_, ?_, ?_⟩
  · simp only [readCommits, proposedBytes, h1, h2]
    show Outcome.finished
        (applyEntry ⟨k, v₂, "DEL"⟩ (applyEntry ⟨k, v₁, "DEL"⟩ t)) = _
    show Outcome.finished (tdel (tdel t k) k) = _
    rw [tdel_idem]
  · show tdel (tdel t k) k = tdel t k
    exact tdel_idem t k
  · show tlookup (tdel (tdel t k) k) k = none
    rw [tdel_idem]
    exact tlookup_tdel_self t k

/-- C8: when a message on the commit feed fails to decode, the failure
is fatal (`log.Fatalf`): the loop stops in the `fatal` outcome without
applying the corrupt entry, and the table in that outcome is exactly the
fold of the entries applied before it. -/
theorem claim_decode_fatal (snap : SnapLoad) (errC : Option Unit)
    (es : List kv) (bad : List Nat) (rest : List Msg) (t : Table)
    (h : gobDecode bad = none) :
    readCommits snap errC
        (es.map (fun e => some (gobEncode e)) ++ some bad :: rest) t =
      Outcome.fatal (applyAll es t) := by
  rw [readCommits_encoded_front]
  show (match gobDecode bad with
    | none => Outcome.fatal (applyAll es t)
    | some dataKv => readCommits snap errC rest (applyEntry dataKv (applyAll es t))) = _
  rw [h]

theorem claim_decode_fatal_witness :
    gobDecode [] = none ∧
    readCommits SnapLoad.errNoSnapshot none
        ([kv.mk "a" "1" "SET"].map (fun e => some (gobEncode e)) ++
          some [] :: []) [] =
      Outcome.fatal (applyAll [kv.mk "a" "1" "SET"] []) ∧
    applyAll [kv.mk "a" "1" "SET"] [] = [("a", "1")] :=
  ⟨rfl,
   claim_decode_fatal SnapLoad.errNoSnapshot none [kv.mk "a" "1" "SET"] [] [] []
     rfl,
   rfl⟩

/-- C9: a request whose method is none of PUT, GET, POST, DELETE gets a
405 response whose `Allow` header enumerates exactly PUT, GET, POST,
DELETE, and neither the store (table and propose channel) nor the
configuration-change channel is touched. -/
theorem claim_method_not_allowed (s : KvStore) (cc : List ConfChange)
    (r : HttpRequest) (h1 : r.method ≠ "PUT") (h2 : r.method ≠ "GET")
    (h3 : r.method ≠ "POST") (h4 : r.method ≠ "DELETE") :
    ServeHTTP s cc r =
      (⟨405, ["PUT", "GET", "POST", "DELETE"], "Method not allowed"⟩, s, cc) := by
  unfold ServeHTTP
  rw [if_neg h1, if_neg h2, if_neg h3, if_neg h4]

theorem claim_method_not_allowed_witness :
    ServeHTTP (KvStore.mk [] [("a", "1")]) [] ⟨"PATCH", "/a", "x"⟩ =
      (⟨405, ["PUT", "GET", "POST", "DELETE"], "Method not allowed"⟩,
        KvStore.mk [] [("a", "1")], []) :=
  claim_method_not_allowed (KvStore.mk [] [("a", "1")]) [] ⟨"PATCH", "/a", "x"⟩
    (by decide) (by decide) (by decide) (by decide)

/-- C10: `GetSnapshot` never modifies the store: the store it hands back
is the one it was given (same keys and values under `Lookup`), and a
repeated call on the unchanged store returns the same bytes. -/
theorem claim_getsnapshot_frame (s : KvStore) :
    s.GetSnapshot.2 = s ∧
    (∀ k, s.GetSnapshot.2.Lookup k = s.Lookup k) ∧
    s.GetSnapshot.2.GetSnapshot.1 = s.GetSnapshot.1 :=
  ⟨rfl, fun _ => rfl, rfl⟩
